import Mathlib

/-!
Verification of the core algorithms of the youtube-channel-analyzer
repository: the feed merge (FeedAggregator), the windowed metrics
accumulator, the operation-span computation, the API-key quota
allocator/ledger (`YouTubeAPIKeyManager`), and the retry wrapper
(`retry_with_backoff`).

Machine integers are modelled as `Nat`/`Int` (Python ints are unbounded),
timestamps as `Int` seconds since the epoch, Python `dict`s as
association lists with unique keys, and raised exceptions as `Except`
results.
-/

namespace YTAnalyzer

/-! ## FeedAggregator: merging the RSS item list with the API item list

`src/scripts/step2_collect_youtube_data.py` lines 286-287:
  the truthy RSS video ids concatenated with api_videos, then
  `all_video_ids = list(dict.fromkeys(all_video_ids))[:30]`

`src/scripts/analyzer.py` lines 801-802 (`get_channel_data_hybrid`):
  the truthy RSS video ids concatenated with api_videos, then
  `all_video_ids = all_video_ids[:30]`
-/

/-- Python `list(dict.fromkeys(l))`: drop duplicates keeping the first occurrence,
preserving first-occurrence order. -/
def dedupFirst : List String → List String
  | [] => []
  | x :: xs => x :: dedupFirst (xs.filter (fun y => y != x))
termination_by l => l.length
decreasing_by
  simp only [List.length_cons]
  exact Nat.lt_succ_of_le (List.length_filter_le _ _)

/-- The merge in `step2_collect_youtube_data.get_channel_data` (lines
286-287): concatenate the RSS ids and the API ids, drop duplicates
keeping the first occurrence, truncate to 30. -/
def merge_step2 (rssIds apiIds : List String) : List String :=
  (dedupFirst (rssIds ++ apiIds)).take 30

/-- The merge in `analyzer.get_channel_data_hybrid` (lines 801-802):
concatenate the RSS ids and the API ids and truncate to 30 — no
deduplication is performed here. -/
def merge_hybrid (rssIds apiIds : List String) : List String :=
  (rssIds ++ apiIds).take 30

theorem mem_dedupFirst (a : String) : ∀ l : List String, a ∈ dedupFirst l ↔ a ∈ l := by
  intro l
  induction l using dedupFirst.induct with
  | case1 => simp [dedupFirst]
  | case2 x xs ih =>
    simp only [dedupFirst, List.mem_cons, ih, List.mem_filter, bne_iff_ne, ne_eq]
    constructor
    · rintro (rfl | ⟨hmem, _⟩)
      · exact Or.inl rfl
      · exact Or.inr hmem
    · rintro (rfl | hmem)
      · exact Or.inl rfl
      · by_cases hax : a = x
        · exact Or.inl hax
        · exact Or.inr ⟨hmem, hax⟩

theorem nodup_dedupFirst : ∀ l : List String, (dedupFirst l).Nodup := by
  intro l
  induction l using dedupFirst.induct with
  | case1 => simp [dedupFirst]
  | case2 x xs ih =>
    simp only [dedupFirst, List.nodup_cons]
    refine ⟨fun hx => ?_, ih⟩
    rw [mem_dedupFirst, List.mem_filter] at hx
    simp at hx

theorem toFinset_dedupFirst (l : List String) : (dedupFirst l).toFinset = l.toFinset := by
  ext a
  simp [List.mem_toFinset, mem_dedupFirst]

theorem length_dedupFirst (l : List String) : (dedupFirst l).length = l.toFinset.card := by
  rw [← toFinset_dedupFirst, List.toFinset_card_of_nodup (nodup_dedupFirst l)]

/-- C1 (amended): the merge of `get_channel_data` in
`step2_collect_youtube_data.py` concatenates the cheap-source list A and
the bulk-source list B, drops duplicate itemIds keeping the first
occurrence, and truncates to 30; for duplicate-free A (at most 15 items)
and B sharing k common itemIds the result has length
min(30, |A|+|B|-k) and no duplicate itemId.  (The merge of
`get_channel_data_hybrid` in `analyzer.py` does not deduplicate; see the
counterexample.) -/
theorem merge_step2_dedup_invariant (A B : List String)
    (hA15 : A.length ≤ 15) (hA : A.Nodup) (hB : B.Nodup) :
    (merge_step2 A B).Nodup ∧
    (merge_step2 A B).length =
      min 30 (A.length + B.length - (A.toFinset ∩ B.toFinset).card) := by
  constructor
  · exact (nodup_dedupFirst (A ++ B)).sublist (List.take_sublist _ _)
  · have hcard : (A.toFinset ∪ B.toFinset).card + (A.toFinset ∩ B.toFinset).card
        = A.toFinset.card + B.toFinset.card := Finset.card_union_add_card_inter _ _
    have hAcard : A.toFinset.card = A.length := List.toFinset_card_of_nodup hA
    have hBcard : B.toFinset.card = B.length := List.toFinset_card_of_nodup hB
    have hlen : (dedupFirst (A ++ B)).length
        = A.length + B.length - (A.toFinset ∩ B.toFinset).card := by
      rw [length_dedupFirst, List.toFinset_append]
      omega
    simp [merge_step2, List.length_take, hlen]

/-- Witness for C1: two concrete duplicate-free lists sharing one common
itemId. -/
theorem merge_step2_dedup_invariant_witness :
    (merge_step2 ["a", "b"] ["b", "c"]).Nodup ∧
    (merge_step2 ["a", "b"] ["b", "c"]).length =
      min 30 (2 + 2 - ((["a", "b"] : List String).toFinset ∩
        (["b", "c"] : List String).toFinset).card) :=
  merge_step2_dedup_invariant ["a", "b"] ["b", "c"]
    (by decide) (by decide) (by decide)

/-- C1 counterexample: the merge of `get_channel_data_hybrid`
(`analyzer.py` lines 801-802), one of the two merge sites the claim
describes, performs no deduplication: for A = ["a"] and B = ["a"]
(k = 1) the merged result is ["a", "a"], which contains a duplicate
itemId and has length 2 ≠ min(30, 1+1-1) = 1. -/
theorem merge_hybrid_no_dedup_cex :
    merge_hybrid ["a"] ["a"] = ["a", "a"] ∧
    ¬ (merge_hybrid ["a"] ["a"]).Nodup ∧
    (merge_hybrid ["a"] ["a"]).length ≠ min 30 (1 + 1 - 1) := by
  refine ⟨rfl, ?_, by decide⟩
  decide

/-! ## Operation span (first/latest upload, operation days)

Timestamps are `Int` seconds; the Python `timedelta.days` value is floor
division of the difference by 86400 (`Int.fdiv`).  The empty string in
`first_upload`/`latest_upload` is modelled as `none`.

`analyzer.py` lines 928-954 (`get_channel_data_hybrid`):
  `if dates: operation_days = (max(dates) - min(dates)).days`
  `elif channel_created_date: first = latest = created; operation_days = 0`

`step2_collect_youtube_data.py` lines 368-379 (`get_channel_data`):
  `if dates: operation_days = (now - min(dates)).days`
  `elif channel_created: first_upload = created; operation_days = (now - created).days`
  (and `latest_upload` is left empty in the fallback branch).
-/

/-- The three span-related output fields of the channel record. -/
structure SpanFields where
  first_upload : Option Int
  latest_upload : Option Int
  operation_days : Int
deriving DecidableEq, Repr

/-- Span computation of `get_channel_data_hybrid` (`analyzer.py` lines
928-954): operation days = (max dates - min dates).days, falling back
to the channel creation date (as both first and latest, span 0) when no
item has a timestamp. -/
def spanHybrid (dates : List Int) (channelCreated : Option Int) : SpanFields :=
  match dates with
  | [] =>
    match channelCreated with
    | some c => { first_upload := some c, latest_upload := some c, operation_days := 0 }
    | none => { first_upload := none, latest_upload := none, operation_days := 0 }
  | d :: ds =>
    { first_upload := some (ds.foldl min d)
      latest_upload := some (ds.foldl max d)
      operation_days := (ds.foldl max d - ds.foldl min d).fdiv 86400 }

/-- Span computation of `get_channel_data` (`step2_collect_youtube_data.py`
lines 368-379): operation days = (now - min dates).days; the fallback
sets only `first_upload` to the creation date and computes
(now - created).days, leaving `latest_upload` empty. -/
def spanStep2 (now : Int) (dates : List Int) (channelCreated : Option Int) : SpanFields :=
  match dates with
  | [] =>
    match channelCreated with
    | some c =>
      { first_upload := some c, latest_upload := none,
        operation_days := (now - c).fdiv 86400 }
    | none => { first_upload := none, latest_upload := none, operation_days := 0 }
  | d :: ds =>
    { first_upload := some (ds.foldl min d)
      latest_upload := some (ds.foldl max d)
      operation_days := (now - ds.foldl min d).fdiv 86400 }

theorem foldl_max_mem (d : Int) (ds : List Int) : ds.foldl max d ∈ d :: ds := by
  induction ds generalizing d with
  | nil => simp
  | cons e es ih =>
    simp only [List.foldl_cons]
    rcases List.mem_cons.mp (ih (max d e)) with h | h
    · rcases max_choice d e with h2 | h2 <;> rw [h, h2]
      · exact List.mem_cons_self _ _
      · exact List.mem_cons_of_mem _ (List.mem_cons_self _ _)
    · exact List.mem_cons_of_mem _ (List.mem_cons_of_mem _ h)

theorem le_foldl_max (d : Int) (ds : List Int) : ∀ x ∈ d :: ds, x ≤ ds.foldl max d := by
  induction ds generalizing d with
  | nil =>
    intro x hx
    simp only [List.mem_singleton] at hx
    simp [hx]
  | cons e es ih =>
    intro x hx
    simp only [List.foldl_cons]
    rcases List.mem_cons.mp hx with rfl | hx2
    · exact le_trans (le_max_left x e) (ih (max x e) _ (List.mem_cons_self _ _))
    · rcases List.mem_cons.mp hx2 with rfl | hx3
      · exact le_trans (le_max_right d x) (ih (max d x) _ (List.mem_cons_self _ _))
      · exact ih (max d e) x (List.mem_cons_of_mem _ hx3)

theorem foldl_min_mem (d : Int) (ds : List Int) : ds.foldl min d ∈ d :: ds := by
  induction ds generalizing d with
  | nil => simp
  | cons e es ih =>
    simp only [List.foldl_cons]
    rcases List.mem_cons.mp (ih (min d e)) with h | h
    · rcases min_choice d e with h2 | h2 <;> rw [h, h2]
      · exact List.mem_cons_self _ _
      · exact List.mem_cons_of_mem _ (List.mem_cons_self _ _)
    · exact List.mem_cons_of_mem _ (List.mem_cons_of_mem _ h)

theorem foldl_min_le (d : Int) (ds : List Int) : ∀ x ∈ d :: ds, ds.foldl min d ≤ x := by
  induction ds generalizing d with
  | nil =>
    intro x hx
    simp only [List.mem_singleton] at hx
    simp [hx]
  | cons e es ih =>
    intro x hx
    simp only [List.foldl_cons]
    rcases List.mem_cons.mp hx with rfl | hx2
    · exact le_trans (ih (min x e) _ (List.mem_cons_self _ _)) (min_le_left x e)
    · rcases List.mem_cons.mp hx2 with rfl | hx3
      · exact le_trans (ih (min d x) _ (List.mem_cons_self _ _)) (min_le_right d x)
      · exact ih (min d e) x (List.mem_cons_of_mem _ hx3)

theorem foldl_max_eq {d M : Int} {ds : List Int} (hM : M ∈ d :: ds)
    (hub : ∀ x ∈ d :: ds, x ≤ M) : ds.foldl max d = M :=
  le_antisymm (hub _ (foldl_max_mem d ds)) (le_foldl_max d ds M hM)

theorem foldl_min_eq {d m : Int} {ds : List Int} (hm : m ∈ d :: ds)
    (hlb : ∀ x ∈ d :: ds, m ≤ x) : ds.foldl min d = m :=
  le_antisymm (foldl_min_le d ds m hm) (hlb _ (foldl_min_mem d ds))

/-- C2 (amended): in `analyzer.get_channel_data_hybrid` the operation
span is (max timestamp - min timestamp) in days — 0 when exactly one
dated item exists — and with no dated item the channel creation date is
used as both first and latest upload with span 0; but in
`step2_collect_youtube_data.get_channel_data` the span is
(now - min timestamp) in days, and its fallback sets only the first
upload to the creation date, with span (now - created) in days and an
empty latest upload. -/
theorem operation_span_policy (d : Int) (ds : List Int) (co : Option Int)
    (c now M m : Int)
    (hM : M ∈ d :: ds) (hub : ∀ x ∈ d :: ds, x ≤ M)
    (hm : m ∈ d :: ds) (hlb : ∀ x ∈ d :: ds, m ≤ x) :
    spanHybrid (d :: ds) co =
      { first_upload := some m, latest_upload := some M,
        operation_days := (M - m).fdiv 86400 } ∧
    (M = m → (spanHybrid (d :: ds) co).operation_days = 0) ∧
    spanHybrid [] (some c) =
      { first_upload := some c, latest_upload := some c, operation_days := 0 } ∧
    spanStep2 now (d :: ds) co =
      { first_upload := some m, latest_upload := some M,
        operation_days := (now - m).fdiv 86400 } ∧
    spanStep2 now [] (some c) =
      { first_upload := some c, latest_upload := none,
        operation_days := (now - c).fdiv 86400 } := by
  have hmax : ds.foldl max d = M := foldl_max_eq hM hub
  have hmin : ds.foldl min d = m := foldl_min_eq hm hlb
  refine ⟨?_, ?_, rfl, ?_, rfl⟩
  · simp [spanHybrid, hmax, hmin]
  · intro hMm
    simp [spanHybrid, hmax, hmin, hMm, Int.fdiv]
  · simp [spanStep2, hmax, hmin]

/-- Witness for C2: dates {0, 86400} with max 86400 and min 0. -/
theorem operation_span_policy_witness :
    spanHybrid [0, 86400] none =
      { first_upload := some 0, latest_upload := some 86400,
        operation_days := ((86400 : Int) - 0).fdiv 86400 } ∧
    ((86400 : Int) = 0 → (spanHybrid [0, 86400] none).operation_days = 0) ∧
    spanHybrid [] (some 5) =
      { first_upload := some 5, latest_upload := some 5, operation_days := 0 } ∧
    spanStep2 1000000 [0, 86400] none =
      { first_upload := some 0, latest_upload := some 86400,
        operation_days := ((1000000 : Int) - 0).fdiv 86400 } ∧
    spanStep2 1000000 [] (some 5) =
      { first_upload := some 5, latest_upload := none,
        operation_days := ((1000000 : Int) - 5).fdiv 86400 } :=
  operation_span_policy 0 [86400] none 5 1000000 86400 0
    (by decide) (by decide) (by decide) (by decide)

/-- C2 counterexample: in `step2_collect_youtube_data.get_channel_data`
(lines 368-379), with exactly one dated item published 7 days before the
collection instant, the reported span is 7, not 0; and with no dated
item the span is (now - created).days rather than 0 and the latest
upload is left empty rather than set to the creation date. -/
theorem step2_span_not_max_minus_min_cex :
    (spanStep2 604800 [0] none).operation_days = 7 ∧
    (spanStep2 604800 [0] none).operation_days ≠ 0 ∧
    (spanStep2 604800 [] (some 0)).operation_days ≠ 0 ∧
    (spanStep2 604800 [] (some 0)).latest_upload ≠ some 0 := by
  refine ⟨?_, ?_, ?_, ?_⟩ <;> decide

/-! ## YouTubeAPIKeyManager (`analyzer.py` lines 207-327)

`api_keys` is the list built by `load_keys_from_sheet`; `quota_status`
is the Python dict mapping key name to its quota record, modelled as an
association list (a dict has unique keys; lookup returns the first
match).  A raised exception is an `Except.error`; `AllocError.keyError`
models a Python `KeyError` on `self.quota_status[key_name]`, which
cannot occur for a well-formed manager. -/

/-- One element of `self.api_keys` (`analyzer.py` lines 278-283). -/
structure KeyInfo where
  name : String
  key : String
  row : Nat
deriving DecidableEq, Repr

/-- One value of `self.quota_status` (`analyzer.py` lines 285-292). -/
structure QuotaInfo where
  total : Int
  used : Int
  remaining : Int
  errors : Nat
  session_used : Int
deriving DecidableEq, Repr

abbrev QuotaTable := List (String × QuotaInfo)

/-- The dict access `self.quota_status[key_name]` as a partial lookup. -/
def lookupStatus (qs : QuotaTable) (n : String) : Option QuotaInfo :=
  (qs.find? (fun p => p.1 == n)).map Prod.snd

structure KeyManager where
  api_keys : List KeyInfo
  quota_status : QuotaTable
deriving DecidableEq

inductive AllocError where
  /-- line 304: `raise Exception("사용 가능한 API 키가 없습니다")` -/
  | noKeys
  /-- a Python `KeyError` on the quota dict (unreachable when well-formed) -/
  | keyError
  /-- line 320: `raise Exception("모든 API 키의 할당량이 부족합니다")` -/
  | quotaExhausted
deriving DecidableEq, Repr

/-- The backup scan of `get_key_for_row` (`analyzer.py` lines 314-318):
return the first key whose remaining quota suffices. -/
def scanBackup (qs : QuotaTable) (required : Int) :
    List KeyInfo → Except AllocError KeyInfo
  | [] => Except.error AllocError.quotaExhausted
  | k :: ks =>
    match lookupStatus qs k.name with
    | none => Except.error AllocError.keyError
    | some s =>
      if required ≤ s.remaining then Except.ok k else scanBackup qs required ks

/-- Method `YouTubeAPIKeyManager.get_key_for_row` (`analyzer.py` lines 301-320):
primary candidate at index `(row_number - 4) % len(api_keys)`, returned
when its remaining quota covers `required_quota`; otherwise the first
sufficient key in `api_keys` order; otherwise quota exhaustion. -/
def get_key_for_row (m : KeyManager) (row_number : Int) (required_quota : Int) :
    Except AllocError KeyInfo :=
  if m.api_keys.isEmpty then Except.error AllocError.noKeys
  else
    match m.api_keys[(((row_number - 4) % (m.api_keys.length : Int)).toNat)]? with
    | none => Except.error AllocError.keyError
    | some selected =>
      match lookupStatus m.quota_status selected.name with
      | none => Except.error AllocError.keyError
      | some status =>
        if required_quota ≤ status.remaining then Except.ok selected
        else scanBackup m.quota_status required_quota m.api_keys

/-- The three field updates of `update_quota_used` (`analyzer.py` lines
325-327). -/
def debitEntry (units : Int) (q : QuotaInfo) : QuotaInfo :=
  { q with used := q.used + units, remaining := q.remaining - units,
           session_used := q.session_used + units }

def updateEntry (key_name : String) (units : Int) (p : String × QuotaInfo) :
    String × QuotaInfo :=
  if p.1 == key_name then (p.1, debitEntry units p.2) else p

/-- Method `YouTubeAPIKeyManager.update_quota_used` (`analyzer.py` lines
322-327): mutate the entry for `key_name` if present, else do nothing. -/
def update_quota_used (qs : QuotaTable) (key_name : String) (units : Int) :
    QuotaTable :=
  if qs.any (fun p => p.1 == key_name) then qs.map (updateEntry key_name units)
  else qs

theorem lookupStatus_cons (p : String × QuotaInfo) (ps : QuotaTable) (n : String) :
    lookupStatus (p :: ps) n =
      if (p.1 == n) = true then some p.2 else lookupStatus ps n := by
  by_cases h : (p.1 == n) = true
  · rw [if_pos h]
    unfold lookupStatus
    rw [@List.find?_cons_of_pos _ (fun q => q.1 == n) p ps h]
    rfl
  · rw [if_neg h]
    unfold lookupStatus
    rw [@List.find?_cons_of_neg _ (fun q => q.1 == n) p ps h]

theorem scanBackup_ok_mem {qs : QuotaTable} {req : Int} :
    ∀ {ks : List KeyInfo} {k : KeyInfo}, scanBackup qs req ks = Except.ok k →
      k ∈ ks ∧ ∃ s, lookupStatus qs k.name = some s ∧ req ≤ s.remaining := by
  intro ks
  induction ks with
  | nil => intro k h; simp [scanBackup] at h
  | cons k0 ks ih =>
    intro k h
    simp only [scanBackup] at h
    cases hl : lookupStatus qs k0.name with
    | none => simp [hl] at h
    | some s =>
      simp only [hl] at h
      by_cases hr : req ≤ s.remaining
      · rw [if_pos hr] at h
        injection h with h2
        subst h2
        exact ⟨List.mem_cons_self _ _, s, hl, hr⟩
      · rw [if_neg hr] at h
        obtain ⟨hm, hs⟩ := ih h
        exact ⟨List.mem_cons_of_mem _ hm, hs⟩

theorem scanBackup_exhausted_iff {qs : QuotaTable} {req : Int} {ks : List KeyInfo}
    (hwf : ∀ k ∈ ks, (lookupStatus qs k.name).isSome) :
    scanBackup qs req ks = Except.error AllocError.quotaExhausted ↔
      ∀ k ∈ ks, ∀ s, lookupStatus qs k.name = some s → s.remaining < req := by
  induction ks with
  | nil => simp [scanBackup]
  | cons k0 ks ih =>
    obtain ⟨s0, hs0⟩ := Option.isSome_iff_exists.mp (hwf k0 (List.mem_cons_self _ _))
    simp only [scanBackup, hs0]
    by_cases hr : req ≤ s0.remaining
    · rw [if_pos hr]
      constructor
      · intro h; exact absurd h (by simp)
      · intro h
        exact absurd (h k0 (List.mem_cons_self _ _) s0 hs0) (not_lt.mpr hr)
    · rw [if_neg hr]
      rw [ih (fun k hk => hwf k (List.mem_cons_of_mem _ hk))]
      constructor
      · intro h k hk s hs
        rcases List.mem_cons.mp hk with rfl | hk2
        · rw [hs0] at hs
          injection hs with he
          rw [← he]
          exact lt_of_not_ge hr
        · exact h k hk2 s hs
      · intro h k hk s hs
        exact h k (List.mem_cons_of_mem _ hk) s hs

theorem scanBackup_ok_of_sufficient {qs : QuotaTable} {req : Int} {ks : List KeyInfo}
    (hwf : ∀ k ∈ ks, (lookupStatus qs k.name).isSome)
    (hex : ∃ k ∈ ks, ∃ s, lookupStatus qs k.name = some s ∧ req ≤ s.remaining) :
    ∃ k, scanBackup qs req ks = Except.ok k := by
  induction ks with
  | nil =>
    obtain ⟨k, hk, _⟩ := hex
    simp at hk
  | cons k0 ks ih =>
    obtain ⟨s0, hs0⟩ := Option.isSome_iff_exists.mp (hwf k0 (List.mem_cons_self _ _))
    simp only [scanBackup, hs0]
    by_cases hr : req ≤ s0.remaining
    · exact ⟨k0, by rw [if_pos hr]⟩
    · rw [if_neg hr]
      apply ih (fun k hk => hwf k (List.mem_cons_of_mem _ hk))
      obtain ⟨k, hk, s, hs, hsr⟩ := hex
      rcases List.mem_cons.mp hk with rfl | hk2
      · rw [hs0] at hs
        injection hs with he
        exact absurd (he ▸ hsr) hr
      · exact ⟨k, hk2, s, hs, hsr⟩

theorem primary_index_lt (m : KeyManager) (row : Int) (h : m.api_keys ≠ []) :
    ((row - 4) % (m.api_keys.length : Int)).toNat < m.api_keys.length := by
  have hlen : 0 < m.api_keys.length := List.length_pos.mpr h
  have h1 : 0 ≤ (row - 4) % (m.api_keys.length : Int) :=
    Int.emod_nonneg _ (by exact_mod_cast Nat.pos_iff_ne_zero.mp hlen)
  have h2 : (row - 4) % (m.api_keys.length : Int) < (m.api_keys.length : Int) :=
    Int.emod_lt_of_pos _ (by exact_mod_cast hlen)
  omega

theorem get_key_for_row_ok_sufficient {m : KeyManager} {row req : Int} {k : KeyInfo}
    (h : get_key_for_row m row req = Except.ok k) :
    k ∈ m.api_keys ∧
      ∃ s, lookupStatus m.quota_status k.name = some s ∧ req ≤ s.remaining := by
  unfold get_key_for_row at h
  by_cases hemp : m.api_keys.isEmpty
  · rw [if_pos hemp] at h
    simp at h
  · rw [if_neg hemp] at h
    cases hsel : m.api_keys[(((row - 4) % (m.api_keys.length : Int)).toNat)]? with
    | none => simp [hsel] at h
    | some selected =>
      simp only [hsel] at h
      cases hls : lookupStatus m.quota_status selected.name with
      | none => simp [hls] at h
      | some status =>
        simp only [hls] at h
        by_cases hr : req ≤ status.remaining
        · rw [if_pos hr] at h
          injection h with h2
          subst h2
          exact ⟨List.getElem?_mem hsel, status, hls, hr⟩
        · rw [if_neg hr] at h
          exact scanBackup_ok_mem h

/-- C3: for every manager with at least one key whose quota table
carries a record for every key, `get_key_for_row` returns a credential
with remaining quota ≥ `required_quota` whenever some credential has
enough (in particular never an insufficient primary), and it raises the
quota-exhausted error exactly when no credential has enough. -/
theorem allocator_fallback_and_exhaustion (m : KeyManager) (row req : Int)
    (hne : m.api_keys ≠ [])
    (hwf : ∀ k ∈ m.api_keys, (lookupStatus m.quota_status k.name).isSome) :
    ((∃ k ∈ m.api_keys, ∃ s, lookupStatus m.quota_status k.name = some s ∧
        req ≤ s.remaining) →
      ∃ k s, get_key_for_row m row req = Except.ok k ∧ k ∈ m.api_keys ∧
        lookupStatus m.quota_status k.name = some s ∧ req ≤ s.remaining) ∧
    (get_key_for_row m row req = Except.error AllocError.quotaExhausted ↔
      ∀ k ∈ m.api_keys, ∀ s, lookupStatus m.quota_status k.name = some s →
        s.remaining < req) := by
  have hemp : ¬ m.api_keys.isEmpty = true := by
    simpa [List.isEmpty_iff] using hne
  have hidx := primary_index_lt m row hne
  obtain ⟨selected, hsel⟩ :
      ∃ k, m.api_keys[(((row - 4) % (m.api_keys.length : Int)).toNat)]? = some k := by
    rw [List.getElem?_eq_getElem hidx]
    exact ⟨_, rfl⟩
  have hselmem : selected ∈ m.api_keys := List.getElem?_mem hsel
  obtain ⟨status, hst⟩ := Option.isSome_iff_exists.mp (hwf selected hselmem)
  by_cases hr : req ≤ status.remaining
  · have hres : get_key_for_row m row req = Except.ok selected := by
      simp [get_key_for_row, hemp, hsel, hst, hr]
    constructor
    · intro _
      exact ⟨selected, status, hres, hselmem, hst, hr⟩
    · rw [hres]
      constructor
      · intro h
        exact absurd h (by simp)
      · intro hall
        exact absurd (hall selected hselmem status hst) (not_lt.mpr hr)
  · have hres : get_key_for_row m row req =
        scanBackup m.quota_status req m.api_keys := by
      simp [get_key_for_row, hemp, hsel, hst, hr]
    constructor
    · intro hex
      obtain ⟨k, hscan⟩ := scanBackup_ok_of_sufficient hwf hex
      obtain ⟨hkmem, s, hs, hsr⟩ := scanBackup_ok_mem hscan
      exact ⟨k, s, by rw [hres, hscan], hkmem, hs, hsr⟩
    · rw [hres]
      exact scanBackup_exhausted_iff hwf

/-- A concrete manager: the primary key for row 4 ("a") has only 50
units remaining, the backup key ("b") has 10000. -/
def demoMgr : KeyManager :=
  { api_keys := [⟨"a", "ka", 4⟩, ⟨"b", "kb", 5⟩],
    quota_status := [("a", ⟨10000, 9950, 50, 0, 0⟩), ("b", ⟨10000, 0, 10000, 0, 0⟩)] }

/-- Witness for C3 at `demoMgr`, row 4, required quota 110. -/
theorem allocator_fallback_and_exhaustion_witness :
    ((∃ k ∈ demoMgr.api_keys, ∃ s, lookupStatus demoMgr.quota_status k.name = some s ∧
        (110 : Int) ≤ s.remaining) →
      ∃ k s, get_key_for_row demoMgr 4 110 = Except.ok k ∧ k ∈ demoMgr.api_keys ∧
        lookupStatus demoMgr.quota_status k.name = some s ∧ (110 : Int) ≤ s.remaining) ∧
    (get_key_for_row demoMgr 4 110 = Except.error AllocError.quotaExhausted ↔
      ∀ k ∈ demoMgr.api_keys, ∀ s, lookupStatus demoMgr.quota_status k.name = some s →
        s.remaining < 110) :=
  allocator_fallback_and_exhaustion demoMgr 4 110 (by decide) (by decide)

/-- C4: the primary candidate is the key at index
`(row_number - 4) mod len(api_keys)`, and `get_key_for_row` returns
exactly that key whenever its remaining quota covers the requirement. -/
theorem allocator_primary_deterministic (m : KeyManager) (row req : Int)
    (k : KeyInfo) (s : QuotaInfo)
    (hk : m.api_keys[(((row - 4) % (m.api_keys.length : Int)).toNat)]? = some k)
    (hs : lookupStatus m.quota_status k.name = some s)
    (hq : req ≤ s.remaining) :
    get_key_for_row m row req = Except.ok k := by
  have hemp : ¬ m.api_keys.isEmpty = true := by
    intro hempty
    rw [List.isEmpty_iff] at hempty
    rw [hempty] at hk
    simp at hk
  simp [get_key_for_row, hemp, hk, hs, hq]

/-- Witness for C4: with 2 keys, row 5 maps to index (5-4) mod 2 = 1,
key "b", which has sufficient quota and is returned. -/
theorem allocator_primary_deterministic_witness :
    get_key_for_row demoMgr 5 110 = Except.ok ⟨"b", "kb", 5⟩ :=
  allocator_primary_deterministic demoMgr 5 110 ⟨"b", "kb", 5⟩
    ⟨10000, 0, 10000, 0, 0⟩ (by decide) (by decide) (by decide)

theorem lookupStatus_map_updateEntry (qs : QuotaTable) (n : String) (u : Int) :
    lookupStatus (qs.map (updateEntry n u)) n =
      (lookupStatus qs n).map (debitEntry u) := by
  induction qs with
  | nil => rfl
  | cons p ps ih =>
    rw [List.map_cons, lookupStatus_cons, lookupStatus_cons]
    by_cases hp : (p.1 == n) = true
    · rw [show updateEntry n u p = (p.1, debitEntry u p.2) from by
        simp [updateEntry, hp]]
      simp [hp]
    · rw [show updateEntry n u p = p from by simp [updateEntry, hp]]
      simp [hp, ih]

theorem lookupStatus_eq_none_of_not_any (qs : QuotaTable) (n : String)
    (h : ¬ qs.any (fun p => p.1 == n) = true) : lookupStatus qs n = none := by
  induction qs with
  | nil => rfl
  | cons p ps ih =>
    rw [lookupStatus_cons]
    simp only [List.any_cons, Bool.or_eq_true] at h
    push_neg at h
    rw [if_neg h.1]
    exact ih h.2

theorem lookupStatus_update_self (qs : QuotaTable) (n : String) (u : Int) :
    lookupStatus (update_quota_used qs n u) n =
      (lookupStatus qs n).map (debitEntry u) := by
  unfold update_quota_used
  by_cases hany : qs.any (fun p => p.1 == n) = true
  · rw [if_pos hany]
    exact lookupStatus_map_updateEntry qs n u
  · rw [if_neg hany, lookupStatus_eq_none_of_not_any qs n hany]
    rfl

/-- C5: over any sequence of `update_quota_used` calls on a credential
present in the ledger, each debit adds its units to `used`, subtracts
them from `remaining` and adds them to `session_used`, so
used_after = used_before + sum(units), and the invariant
remaining = total - used is preserved. -/
theorem ledger_debit_conservation (qs : QuotaTable) (name : String)
    (units : List Int) (q0 : QuotaInfo)
    (h0 : lookupStatus qs name = some q0) :
    ∃ q1, lookupStatus (units.foldl (fun s u => update_quota_used s name u) qs)
        name = some q1 ∧
      q1.used = q0.used + units.sum ∧
      q1.remaining = q0.remaining - units.sum ∧
      q1.session_used = q0.session_used + units.sum ∧
      q1.total = q0.total ∧
      (q0.remaining = q0.total - q0.used → q1.remaining = q1.total - q1.used) := by
  induction units generalizing qs q0 with
  | nil =>
    exact ⟨q0, h0, by simp, by simp, by simp, rfl, fun h => by simpa using h⟩
  | cons u us ih =>
    rw [List.foldl_cons]
    have h1 : lookupStatus (update_quota_used qs name u) name =
        some (debitEntry u q0) := by
      rw [lookupStatus_update_self, h0]
      rfl
    obtain ⟨q1, hq1, hused, hrem, hsess, htot, _⟩ :=
      ih (update_quota_used qs name u) (debitEntry u q0) h1
    simp only [debitEntry] at hused hrem hsess htot
    have hsum : (u :: us).sum = u + us.sum := List.sum_cons
    exact ⟨q1, hq1, by omega, by omega, by omega, by omega, fun h => by omega⟩

/-- Witness for C5: debit 3 then 4 units against a concrete one-entry
ledger. -/
theorem ledger_debit_conservation_witness :
    ∃ q1, lookupStatus (([3, 4] : List Int).foldl
        (fun s u => update_quota_used s "a" u)
        [("a", (⟨10000, 100, 9900, 0, 0⟩ : QuotaInfo))]) "a" = some q1 ∧
      q1.used = (⟨10000, 100, 9900, 0, 0⟩ : QuotaInfo).used + ([3, 4] : List Int).sum ∧
      q1.remaining = (⟨10000, 100, 9900, 0, 0⟩ : QuotaInfo).remaining - ([3, 4] : List Int).sum ∧
      q1.session_used = (⟨10000, 100, 9900, 0, 0⟩ : QuotaInfo).session_used + ([3, 4] : List Int).sum ∧
      q1.total = (⟨10000, 100, 9900, 0, 0⟩ : QuotaInfo).total ∧
      ((⟨10000, 100, 9900, 0, 0⟩ : QuotaInfo).remaining =
          (⟨10000, 100, 9900, 0, 0⟩ : QuotaInfo).total -
          (⟨10000, 100, 9900, 0, 0⟩ : QuotaInfo).used →
        q1.remaining = q1.total - q1.used) :=
  ledger_debit_conservation [("a", ⟨10000, 100, 9900, 0, 0⟩)] "a" [3, 4]
    ⟨10000, 100, 9900, 0, 0⟩ (by decide)

/-- C10: debiting a key name absent from the quota table is a silent
no-op — no error, and the table (hence the `used`, `remaining` and
`remaining` and `session_used`) is unchanged. -/
theorem debit_unknown_key_noop (qs : QuotaTable) (name : String) (units : Int)
    (h : ∀ p ∈ qs, p.1 ≠ name) :
    update_quota_used qs name units = qs := by
  have h2 : ¬ qs.any (fun p => p.1 == name) = true := by
    intro hany
    obtain ⟨p, hpmem, hpeq⟩ := List.any_eq_true.mp hany
    exact h p hpmem (by simpa using hpeq)
  unfold update_quota_used
  rw [if_neg h2]

/-- Witness for C10: debiting absent key "b" leaves the table for "a"
untouched. -/
theorem debit_unknown_key_noop_witness :
    update_quota_used [("a", (⟨10000, 100, 9900, 0, 0⟩ : QuotaInfo))] "b" 55 =
      [("a", (⟨10000, 100, 9900, 0, 0⟩ : QuotaInfo))] :=
  debit_unknown_key_noop [("a", ⟨10000, 100, 9900, 0, 0⟩)] "b" 55 (by decide)

theorem map_fst_update (qs : QuotaTable) (n : String) (u : Int) :
    (update_quota_used qs n u).map Prod.fst = qs.map Prod.fst := by
  unfold update_quota_used
  split
  · rw [List.map_map]
    apply List.map_congr_left
    intro p hp
    by_cases h : (p.1 == n) = true <;> simp [Function.comp, updateEntry, h]
  · rfl

theorem mem_update_quota_used {qs : QuotaTable} {n : String} {u : Int}
    {p : String × QuotaInfo} (hp : p ∈ update_quota_used qs n u) :
    p ∈ qs ∨ ∃ q, (p.1, q) ∈ qs ∧ p.1 = n ∧ p.2 = debitEntry u q := by
  unfold update_quota_used at hp
  split at hp
  · obtain ⟨p0, hp0mem, hp0eq⟩ := List.mem_map.mp hp
    by_cases h : (p0.1 == n) = true
    · right
      have hn : p0.1 = n := by simpa using h
      have heq : p = (p0.1, debitEntry u p0.2) := by
        rw [← hp0eq]
        simp [updateEntry, h]
      refine ⟨p0.2, ?_, ?_, ?_⟩
      · rw [heq]
        simpa using hp0mem
      · rw [heq]
        exact hn
      · rw [heq]
    · left
      have heq : p = p0 := by
        rw [← hp0eq]
        simp [updateEntry, h]
      rw [heq]
      exact hp0mem
  · exact Or.inl hp

theorem lookupStatus_eq_of_mem_nodup {qs : QuotaTable} {n : String} {q : QuotaInfo}
    (hnd : (qs.map Prod.fst).Nodup) (hmem : (n, q) ∈ qs) :
    lookupStatus qs n = some q := by
  induction qs with
  | nil => simp at hmem
  | cons p ps ih =>
    rw [List.map_cons, List.nodup_cons] at hnd
    rw [lookupStatus_cons]
    rcases List.mem_cons.mp hmem with heq | hmem2
    · rw [← heq]
      simp
    · have hne : ¬ (p.1 == n) = true := by
        intro hb
        have hp1 : p.1 = n := by simpa using hb
        exact hnd.1 (hp1 ▸ List.mem_map.mpr ⟨(n, q), hmem2, rfl⟩)
      rw [if_neg hne]
      exact ih hnd.2 hmem2

/-- One driver step on the quota table: an allocation via
`get_key_for_row` (which refuses keys with remaining < required)
followed by `update_quota_used` of at most the requested units against
the allocated key. -/
def AllocDebitStep (keys : List KeyInfo) (qs qs' : QuotaTable) : Prop :=
  ∃ row req units k, get_key_for_row ⟨keys, qs⟩ row req = Except.ok k ∧
    units ≤ req ∧ qs' = update_quota_used qs k.name units

theorem allocDebit_step_preserves {keys : List KeyInfo} {qs qs' : QuotaTable}
    (hstep : AllocDebitStep keys qs qs')
    (hnd : (qs.map Prod.fst).Nodup)
    (h0 : ∀ p ∈ qs, 0 ≤ p.2.remaining) :
    (qs'.map Prod.fst).Nodup ∧ ∀ p ∈ qs', 0 ≤ p.2.remaining := by
  obtain ⟨row, req, units, k, hok, hle, rfl⟩ := hstep
  refine ⟨by rw [map_fst_update]; exact hnd, ?_⟩
  intro p hp
  obtain ⟨_, s, hs, hreq⟩ := get_key_for_row_ok_sufficient hok
  rcases mem_update_quota_used hp with hmem | ⟨q, hmemq, hn, hdeb⟩
  · exact h0 p hmem
  · have hlq : lookupStatus qs k.name = some q :=
      lookupStatus_eq_of_mem_nodup hnd (hn ▸ hmemq)
    rw [hs] at hlq
    injection hlq with hsq
    subst hsq
    rw [hdeb]
    simp only [debitEntry]
    omega

/-- C6: every quota table reached from a loaded ledger with unique key
names and non-negative remaining quota, through allocate-then-debit
steps (allocation refuses keys with remaining < required, debit is at
most the requested units), keeps remaining ≥ 0 for every credential. -/
theorem ledger_remaining_nonneg_reachable (keys : List KeyInfo)
    (qs qs' : QuotaTable)
    (hnd : (qs.map Prod.fst).Nodup)
    (h0 : ∀ p ∈ qs, 0 ≤ p.2.remaining)
    (hreach : Relation.ReflTransGen (AllocDebitStep keys) qs qs') :
    ∀ p ∈ qs', 0 ≤ p.2.remaining := by
  suffices h : (qs'.map Prod.fst).Nodup ∧ ∀ p ∈ qs', 0 ≤ p.2.remaining from h.2
  induction hreach with
  | refl => exact ⟨hnd, h0⟩
  | tail hab hbc ih => exact allocDebit_step_preserves hbc ih.1 ih.2

/-- Witness for C6: one allocate-then-debit step (row 4, required 110,
debit 100) from a fresh single-key ledger; the resulting entry keeps a
non-negative remaining quota. -/
theorem ledger_remaining_nonneg_reachable_witness :
    (0 : Int) ≤ ((("a" : String), (⟨10000, 100, 9900, 0, 100⟩ : QuotaInfo))).2.remaining :=
  ledger_remaining_nonneg_reachable [⟨"a", "ka", 4⟩]
    [("a", ⟨10000, 0, 10000, 0, 0⟩)] [("a", ⟨10000, 100, 9900, 0, 100⟩)]
    (by decide) (by decide)
    (Relation.ReflTransGen.single
      ⟨4, 110, 100, ⟨"a", "ka", 4⟩, rfl, by decide, by decide⟩)
    ("a", ⟨10000, 100, 9900, 0, 100⟩) (by decide)

/-! ## retry_with_backoff (`analyzer.py` lines 113-147)

Config constants from `analyzer.py` lines 86-88.  One attempt of the
wrapped call is an abstract outcome; `random.uniform(0, 1)` is an
arbitrary jitter function bounded in [0, 1].  The result carries the
list of waits slept, in order. -/

def MAX_RETRIES : Nat := 3

def RETRY_DELAY : ℚ := 2

def RATE_LIMIT_WAIT : ℚ := 60

/-- Outcome of one attempt of the wrapped call: normal return, an
`HttpError` with a response status, or any other exception. -/
inductive CallOutcome (α : Type) where
  | success (v : α)
  | httpError (status : Nat)
  | otherError
deriving DecidableEq

inductive RetryError where
  /-- line 134: a non-429, non-5xx `HttpError` is re-raised immediately -/
  | fatalHttp (status : Nat)
  /-- line 143: a non-HTTP exception on the final attempt is re-raised -/
  | lastError
  /-- line 145: the loop ends with all `MAX_RETRIES` attempts rate-limited
  or 5xx -/
  | exhausted
deriving DecidableEq

/-- The retry loop of `retry_with_backoff` (`analyzer.py` lines
115-145), with `fuel` the number of loop iterations left and `attempt`
the current index of `range(MAX_RETRIES)`.  Returns the final result
together with the backoff waits slept, in order. -/
def retryAux {α : Type} (f : Nat → CallOutcome α) (jitter : Nat → ℚ) :
    Nat → Nat → Except RetryError α × List ℚ
  | _, 0 => (Except.error RetryError.exhausted, [])
  | attempt, fuel + 1 =>
    match f attempt with
    | CallOutcome.success v => (Except.ok v, [])
    | CallOutcome.httpError status =>
      if status = 429 then
        ((retryAux f jitter (attempt + 1) fuel).1,
         (RATE_LIMIT_WAIT * 2 ^ attempt + jitter attempt) ::
           (retryAux f jitter (attempt + 1) fuel).2)
      else if 500 ≤ status then
        ((retryAux f jitter (attempt + 1) fuel).1,
         (RETRY_DELAY * 2 ^ attempt) :: (retryAux f jitter (attempt + 1) fuel).2)
      else (Except.error (RetryError.fatalHttp status), [])
    | CallOutcome.otherError =>
      if attempt < MAX_RETRIES - 1 then
        ((retryAux f jitter (attempt + 1) fuel).1,
         (RETRY_DELAY * 2 ^ attempt) :: (retryAux f jitter (attempt + 1) fuel).2)
      else (Except.error RetryError.lastError, [])

def retry_with_backoff {α : Type} (f : Nat → CallOutcome α) (jitter : Nat → ℚ) :
    Except RetryError α × List ℚ :=
  retryAux f jitter 0 MAX_RETRIES

/-- C7: a wrapped call that is rate-limited on its first two attempts
and succeeds on the third is retried exactly twice, with waits
`RATE_LIMIT_WAIT * 2^attempt + jitter` that are strictly increasing,
and the wrapper returns the success value of the third attempt; a fatal
HTTP error (neither 429 nor a 5xx status) propagates immediately with
no retry and no wait. -/
theorem retry_rate_limited_twice_then_success (α : Type)
    (f g : Nat → CallOutcome α) (jitter : Nat → ℚ) (v : α) (status : Nat)
    (h0 : f 0 = CallOutcome.httpError 429)
    (h1 : f 1 = CallOutcome.httpError 429)
    (h2 : f 2 = CallOutcome.success v)
    (hj0 : 0 ≤ jitter 0) (hj0le : jitter 0 ≤ 1) (hj1 : 0 ≤ jitter 1)
    (hg : g 0 = CallOutcome.httpError status)
    (hs429 : status ≠ 429) (hs500 : status < 500) :
    retry_with_backoff f jitter =
      (Except.ok v,
        [RATE_LIMIT_WAIT * 2 ^ 0 + jitter 0, RATE_LIMIT_WAIT * 2 ^ 1 + jitter 1]) ∧
    RATE_LIMIT_WAIT * 2 ^ 0 + jitter 0 < RATE_LIMIT_WAIT * 2 ^ 1 + jitter 1 ∧
    retry_with_backoff g jitter = (Except.error (RetryError.fatalHttp status), []) := by
  refine ⟨?_, ?_, ?_⟩
  · simp [retry_with_backoff, MAX_RETRIES, retryAux, h0, h1, h2]
  · have hR : RATE_LIMIT_WAIT = 60 := rfl
    rw [hR]
    nlinarith [hj0, hj0le, hj1]
  · have hs500n : ¬ 500 ≤ status := not_le.mpr hs500
    simp [retry_with_backoff, MAX_RETRIES, retryAux, hg, hs429, hs500n]

/-- Witness for C7: concrete outcome sequences and zero jitter. -/
theorem retry_rate_limited_twice_then_success_witness :
    retry_with_backoff
        (fun a => if a < 2 then CallOutcome.httpError 429 else CallOutcome.success (37 : Nat))
        (fun _ => 0) =
      (Except.ok 37,
        [RATE_LIMIT_WAIT * 2 ^ 0 + (fun _ => (0 : ℚ)) 0,
         RATE_LIMIT_WAIT * 2 ^ 1 + (fun _ => (0 : ℚ)) 1]) ∧
    RATE_LIMIT_WAIT * 2 ^ 0 + (fun _ => (0 : ℚ)) 0 <
      RATE_LIMIT_WAIT * 2 ^ 1 + (fun _ => (0 : ℚ)) 1 ∧
    retry_with_backoff (fun _ => (CallOutcome.httpError 404 : CallOutcome Nat))
        (fun _ => 0) =
      (Except.error (RetryError.fatalHttp 404), []) :=
  retry_rate_limited_twice_then_success Nat
    (fun a => if a < 2 then CallOutcome.httpError 429 else CallOutcome.success 37)
    (fun _ => CallOutcome.httpError 404) (fun _ => 0) 37 404
    rfl rfl rfl le_rfl zero_le_one le_rfl rfl (by decide) (by decide)

/-! ## MetricsAccumulator: top-N windows and day-window buckets

`analyzer.py` lines 870-917 (`get_channel_data_hybrid`).  `view_map`
maps a video id to `(viewCount, publishedAt)`; a video absent from the
lookup contributes nothing, one with a null timestamp is skipped by the
day-window loop. -/

/-- Variable `views_list` (`analyzer.py` lines 870-873): the view counts of the
merged ids that appear in the view lookup, in merged order. -/
def viewsList (ids : List String) (viewMap : String → Option (Nat × Option Int)) :
    List Nat :=
  ids.filterMap (fun i => (viewMap i).map Prod.fst)

/-- Assignment result views_N = sum(views_list[:N]) (`analyzer.py` lines
875-878). -/
def views_top (ids : List String) (viewMap : String → Option (Nat × Option Int))
    (n : Nat) : Nat :=
  ((viewsList ids viewMap).take n).sum

/-- The assignment `days_ago = (now - published_at).days` (`analyzer.py` line 898);
Python `timedelta.days` is floor division of the difference by one day
of seconds. -/
def daysAgo (now pub : Int) : Int := (now - pub).fdiv 86400

/-- Lists views_Nd_list (`analyzer.py` lines 888-908): views of the merged
ids that are in the lookup, carry a timestamp, and were published at
most `limit` days ago. -/
def bucketViews (ids : List String) (viewMap : String → Option (Nat × Option Int))
    (now : Int) (limit : Int) : List Nat :=
  ids.filterMap (fun i =>
    match viewMap i with
    | some (v, some pub) => if daysAgo now pub ≤ limit then some v else none
    | _ => none)

theorem sum_take_mono (l : List Nat) {m n : Nat} (h : m ≤ n) :
    (l.take m).sum ≤ (l.take n).sum := by
  calc (l.take m).sum = ((l.take n).take m).sum := by
        rw [List.take_take, Nat.min_eq_left h]
    _ ≤ ((l.take n).take m).sum + ((l.take n).drop m).sum := Nat.le_add_right _ _
    _ = (l.take n).sum := by rw [← List.sum_append, List.take_append_drop]

/-- C8: the top-N window sums over the merged list are monotone:
sum(top5) ≤ sum(top10) ≤ sum(top20) ≤ sum(top30), for every merged id
list and every view lookup. -/
theorem top_window_sums_monotone (ids : List String)
    (viewMap : String → Option (Nat × Option Int)) :
    views_top ids viewMap 5 ≤ views_top ids viewMap 10 ∧
    views_top ids viewMap 10 ≤ views_top ids viewMap 20 ∧
    views_top ids viewMap 20 ≤ views_top ids viewMap 30 :=
  ⟨sum_take_mono _ (by norm_num), sum_take_mono _ (by norm_num),
   sum_take_mono _ (by norm_num)⟩

theorem filterMap_sublist_of_imp {α β : Type} (l : List α) {f g : α → Option β}
    (h : ∀ x y, f x = some y → g x = some y) :
    List.Sublist (l.filterMap f) (l.filterMap g) := by
  induction l with
  | nil => simp
  | cons x xs ih =>
    rw [List.filterMap_cons, List.filterMap_cons]
    cases hf : f x with
    | none =>
      cases hg : g x with
      | none => exact ih
      | some z => exact ih.trans (List.sublist_cons_self _ _)
    | some y =>
      rw [h x y hf]
      exact ih.cons₂ y

theorem bucket_sublist (ids : List String)
    (viewMap : String → Option (Nat × Option Int)) (now : Int)
    {a b : Int} (hab : a ≤ b) :
    List.Sublist (bucketViews ids viewMap now a) (bucketViews ids viewMap now b) := by
  apply filterMap_sublist_of_imp
  intro i v h
  cases hm : viewMap i with
  | none => rw [hm] at h; simp at h
  | some p =>
    obtain ⟨vc, pub⟩ := p
    cases pub with
    | none => rw [hm] at h; simp at h
    | some ts =>
      rw [hm] at h
      simp only at h ⊢
      by_cases hd : daysAgo now ts ≤ a
      · rw [if_pos hd] at h
        rw [if_pos (hd.trans hab)]
        exact h
      · rw [if_neg hd] at h
        exact absurd h (by simp)

/-- C9: the day-window buckets are cumulative, not exclusive: every
item counted in the 5-day bucket also occurs in the 10- and 15-day
buckets (the bucket lists are sublists), and the item counts satisfy
count_5d ≤ count_10d ≤ count_15d. -/
theorem day_window_buckets_cumulative (ids : List String)
    (viewMap : String → Option (Nat × Option Int)) (now : Int) :
    List.Sublist (bucketViews ids viewMap now 5) (bucketViews ids viewMap now 10) ∧
    List.Sublist (bucketViews ids viewMap now 10) (bucketViews ids viewMap now 15) ∧
    List.Sublist (bucketViews ids viewMap now 5) (bucketViews ids viewMap now 15) ∧
    (bucketViews ids viewMap now 5).length ≤ (bucketViews ids viewMap now 10).length ∧
    (bucketViews ids viewMap now 10).length ≤ (bucketViews ids viewMap now 15).length := by
  refine ⟨bucket_sublist ids viewMap now (by norm_num),
    bucket_sublist ids viewMap now (by norm_num),
    bucket_sublist ids viewMap now (by norm_num), ?_, ?_⟩
  · exact (bucket_sublist ids viewMap now (by norm_num : (5:Int) ≤ 10)).length_le
  · exact (bucket_sublist ids viewMap now (by norm_num : (10:Int) ≤ 15)).length_le

end YTAnalyzer
